import Mathlib

/-!
Shallow embedding of the timezone/time-of-day converter (`time-converter.js`).

Modelling conventions:
* JS strings are modelled as `List Char` (abbreviated `Str`); `ofStr` injects
  Lean string literals.
* JS numbers are modelled as exact integers (`Int`/`Nat`); `parseInt` results
  that would be `NaN` are modelled as `none` of an `Option`, and `NaN`
  propagation through arithmetic is modelled by `Option` propagation.
* JS plain objects used as dictionaries are modelled as association lists in
  key-insertion order (matching `Object.keys` enumeration order for the
  non-numeric keys this program uses).
* `Date.prototype.getUTCHours`/`getUTCMinutes` are modelled by the ECMAScript
  definitions `HourFromTime`/`MinFromTime` (floor division and nonnegative
  modulo on the epoch-milliseconds value).
-/

/-- JS strings as lists of characters. -/
abbrev Str : Type := List Char

/-- Inject a Lean string literal into the `Str` model. -/
def ofStr (s : String) : Str := s.data

/-- `String.prototype.split` with a single-character separator: splits on every
occurrence of the separator; the result is always nonempty. -/
def jsSplitOn (sep : Char) : Str → List Str
  | [] => [[]]
  | c :: cs =>
    if c = sep then [] :: jsSplitOn sep cs
    else
      match jsSplitOn sep cs with
      | g :: gs => (c :: g) :: gs
      | [] => [[c]]

/-- Value of a list of decimal digit characters, most significant first. -/
def digitsToNat (ds : Str) : Nat :=
  ds.foldl (fun n c => n * 10 + (c.toNat - 48)) 0

/-- The longest decimal-digit prefix of a character list, as a number;
`none` when there is no leading digit (JS `NaN`). -/
def parseDigits (cs : Str) : Option Nat :=
  let ds := cs.takeWhile Char.isDigit
  if ds.isEmpty then none else some (digitsToNat ds)

/-- JS `parseInt` restricted to the decimal strings this program feeds it:
an optional sign followed by decimal digits; `none` models `NaN`. -/
def jsParseInt (s : Str) : Option Int :=
  if s.headD ' ' = '-' then (parseDigits s.tail).map (fun n => -(n : Int))
  else if s.headD ' ' = '+' then (parseDigits s.tail).map (fun n => (n : Int))
  else (parseDigits s).map (fun n => (n : Int))

/-- `convertTimeStringToMilliseconds` from `time-converter.js`: reads
`'{optional negative}{hour}:{minutes}'` and returns the total milliseconds,
negated when the string starts with `'-'`.  `none` models the `NaN` result
on unparsable input. -/
def convertTimeStringToMilliseconds (timeString : Str) : Option Int :=
  let isNegative := timeString.headD ' ' = '-'
  let hoursAndMinutes := jsSplitOn ':' timeString
  match jsParseInt (hoursAndMinutes.headD []),
        jsParseInt ((hoursAndMinutes.get? 1).getD []) with
  | some h0, some m0 =>
    let hours : Int := (h0.natAbs : Int)
    let minutes := hours * 60 + m0
    let milliseconds := minutes * 60000
    some (if isNegative then -milliseconds else milliseconds)
  | _, _ => none

/-- The only field of the World Time API response the converter consumes. -/
structure TimezoneRecord where
  utc_offset : Str

/-- `getTimeDifference`: target offset minus origin offset, in milliseconds. -/
def getTimeDifference (originTZ targetTZ : TimezoneRecord) : Option Int :=
  match convertTimeStringToMilliseconds originTZ.utc_offset,
        convertTimeStringToMilliseconds targetTZ.utc_offset with
  | some originUTCOffset, some targetUTCOffset => some (targetUTCOffset - originUTCOffset)
  | _, _ => none

/-- `findTimeAtTargetTZ`: the (date-free) time at the target timezone, in
milliseconds: time difference plus origin time. -/
def findTimeAtTargetTZ (originTZ targetTZ : TimezoneRecord) (originTime : Int) : Option Int :=
  (getTimeDifference originTZ targetTZ).map (fun timeDiff => timeDiff + originTime)

/-- Result of `getHoursAndMinutesFromMilliseconds`. -/
structure HoursMinutes where
  hours : Int
  minutes : Int
  deriving DecidableEq, Repr

/-- `getHoursAndMinutesFromMilliseconds`: builds `new Date(milliseconds)` and
reads `getUTCHours`/`getUTCMinutes`; per ECMAScript these are
`HourFromTime(t) = floor(t / 3600000) mod 24` and
`MinFromTime(t) = floor(t / 60000) mod 60` (nonnegative modulo). -/
def getHoursAndMinutesFromMilliseconds (milliseconds : Int) : HoursMinutes :=
  { hours := milliseconds / 3600000 % 24
    minutes := milliseconds / 60000 % 60 }

/-- The composition the spec calls `ConvertWallClock`: shift the origin time
by the offset difference and read back hour/minute of day. -/
def convertWallClock (originTZ targetTZ : TimezoneRecord) (originTime : Int) :
    Option HoursMinutes :=
  (findTimeAtTargetTZ originTZ targetTZ originTime).map getHoursAndMinutesFromMilliseconds

/-- JS `Number.prototype.toString` for the nonnegative integers this program
formats. -/
def natToChars (n : Nat) : Str := Nat.toDigits 10 n

/-- JS `Number.prototype.toString` on an exact integer. -/
def intToChars (i : Int) : Str :=
  if i < 0 then '-' :: natToChars i.natAbs else natToChars i.natAbs

/-- `padNumWithZeros` from `time-converter.js`: pushes `numOfDigits` zero
characters, appends `num.toString()`, and keeps the last `numOfDigits`
characters via `slice(-numOfDigits)`.  `numOfDigits = none` models the call
site that omits the second argument: the loop body never runs and
`slice(-undefined)` is `slice(0)`, the whole string. -/
def padNumWithZeros (num : Int) (numOfDigits : Option Nat) : Str :=
  match numOfDigits with
  | none => intToChars num
  | some k =>
    let joined := List.replicate k '0' ++ intToChars num
    if k = 0 then joined else joined.drop (joined.length - k)

/-- `convert24HourTimeStringTo12Hour`: parses `'H:M'`, chooses AM for parsed
hours below 12 and otherwise subtracts 12 for PM, renders hour `0` as `'12'`,
and zero-pads both fields to two digits. -/
def convert24HourTimeStringTo12Hour (timeString : Str) : Option Str :=
  let parts := jsSplitOn ':' timeString
  match jsParseInt (parts.headD []), jsParseInt ((parts.get? 1).getD []) with
  | some hours0, some minutes =>
    let period := if hours0 < 12 then ofStr "AM" else ofStr "PM"
    let hours := if hours0 < 12 then hours0 else hours0 - 12
    let hourString := if hours = 0 then ofStr "12" else padNumWithZeros hours (some 2)
    let minuteString := padNumWithZeros minutes (some 2)
    some (hourString ++ ':' :: minuteString ++ ' ' :: period)
  | _, _ => none

/-- `convert12HourTimeStringTo24Hour`: splits off the period, returns
`'00:MM'` for 12 AM, the bare time string unchanged for other AM times, and
`'12:MM'` or hour+12 (with the `padNumWithZeros` second argument omitted)
for PM times. -/
def convert12HourTimeStringTo24Hour (timeString : Str) : Option Str :=
  let spaceParts := jsSplitOn ' ' timeString
  let bareTimeString := spaceParts.headD []
  let period := spaceParts.get? 1
  let parts := jsSplitOn ':' bareTimeString
  match jsParseInt (parts.headD []), jsParseInt ((parts.get? 1).getD []) with
  | some hours, some minutes =>
    let minuteString := padNumWithZeros minutes (some 2)
    if period = some (ofStr "AM") then
      some (if hours = 12 then ofStr "00" ++ ':' :: minuteString else bareTimeString)
    else
      let hourString := if hours = 12 then ofStr "12" else padNumWithZeros (hours + 12) none
      some (hourString ++ ':' :: minuteString)
  | _, _ => none

/-- The conversion-and-formatting core of `updateTimeOutput`: parse the time
input, shift it to the target timezone, read back hours and minutes, and
format the template string `hours:minutes` in 12-hour form. -/
def updateTimeOutputString (originTZ targetTZ : TimezoneRecord) (timeInputValue : Str) :
    Option Str :=
  match convertTimeStringToMilliseconds timeInputValue with
  | none => none
  | some timeInputMilliseconds =>
    match findTimeAtTargetTZ originTZ targetTZ timeInputMilliseconds with
    | none => none
    | some targetTimeMilliseconds =>
      let hm := getHoursAndMinutesFromMilliseconds targetTimeMilliseconds
      convert24HourTimeStringTo12Hour (intToChars hm.hours ++ ':' :: intToChars hm.minutes)

/-- Zero-pad a number below 100 to two digits (spec-side helper for stating
the formatting claims). -/
def padTwoSpec (n : Nat) : Str :=
  if n < 10 then '0' :: natToChars n else natToChars n

/-- The canonical zero-padded 24-hour string `HH:MM`. -/
def mk24String (hour minute : Nat) : Str :=
  padTwoSpec hour ++ ':' :: padTwoSpec minute

/-- The canonical 12-hour string `HH:MM AM|PM`. -/
def mk12String (hour minute : Nat) (isPM : Bool) : Str :=
  padTwoSpec hour ++ ':' :: padTwoSpec minute ++ ' ' :: (if isPM then ofStr "PM" else ofStr "AM")

/-- Modelled from the spec: `FormatTo12Hour` as §4.2 words it — hour 0
renders as 12 AM, hour 12 as 12 PM, hours 1–11 unchanged with AM, hours
13–23 minus 12 with PM, both fields zero-padded to two digits. -/
def specFormatTo12Hour (hour minute : Nat) : Str :=
  let h12 := if hour = 0 then 12 else if hour ≤ 12 then hour else hour - 12
  let period := if hour < 12 then ofStr "AM" else ofStr "PM"
  padTwoSpec h12 ++ ':' :: padTwoSpec minute ++ ' ' :: period

/-- Modelled from the spec: `ParseFrom12Hour` as §4.2 words it — AM with hour
12 yields 00, AM otherwise keeps the hour, PM with hour 12 yields 12, PM
otherwise adds 12, output zero-padded to two digits. -/
def specParseFrom12Hour (hour minute : Nat) (isPM : Bool) : Str :=
  let h24 := if isPM then (if hour = 12 then 12 else hour + 12)
             else (if hour = 12 then 0 else hour)
  padTwoSpec h24 ++ ':' :: padTwoSpec minute

theorem jsSplitOn_ne_nil (sep : Char) : ∀ l : Str, jsSplitOn sep l ≠ []
  | [] => by simp [jsSplitOn]
  | c :: cs => by
    simp only [jsSplitOn]
    by_cases h : c = sep
    · simp [h]
    · simp only [if_neg h]
      rcases hg : jsSplitOn sep cs with _ | ⟨g, gs⟩
      · exact absurd hg (jsSplitOn_ne_nil sep cs)
      · simp

theorem jsSplitOn_nosep (sep : Char) : ∀ xs : Str, (∀ c ∈ xs, c ≠ sep) →
    jsSplitOn sep xs = [xs]
  | [], _ => rfl
  | c :: cs, h => by
    have hc : c ≠ sep := h c (by simp)
    have ih := jsSplitOn_nosep sep cs (fun x hx => h x (by simp [hx]))
    simp only [jsSplitOn, if_neg hc, ih]

theorem jsSplitOn_append (sep : Char) : ∀ xs ys : Str, (∀ c ∈ xs, c ≠ sep) →
    jsSplitOn sep (xs ++ sep :: ys) = xs :: jsSplitOn sep ys
  | [], ys, _ => by simp [jsSplitOn]
  | c :: cs, ys, h => by
    have hc : c ≠ sep := h c (by simp)
    have ih := jsSplitOn_append sep cs ys (fun x hx => h x (by simp [hx]))
    simp only [List.cons_append, jsSplitOn, List.append_eq, if_neg hc, ih]

theorem digits_parseDigits (ds : Str) (h1 : ds ≠ []) (h2 : ∀ c ∈ ds, c.isDigit) :
    parseDigits ds = some (digitsToNat ds) := by
  unfold parseDigits
  rw [List.takeWhile_eq_self_iff.mpr h2]
  rcases ds with _ | ⟨d, rest⟩
  · exact absurd rfl h1
  · rfl

theorem isDigit_ne_chars {c : Char} (h : c.isDigit) :
    c ≠ ':' ∧ c ≠ '-' ∧ c ≠ '+' ∧ c ≠ ' ' ∧ c ≠ '/' := by
  refine ⟨?_, ?_, ?_, ?_, ?_⟩ <;> rintro rfl <;> exact absurd h (by decide)

theorem jsParseInt_digits (ds : Str) (h1 : ds ≠ []) (h2 : ∀ c ∈ ds, c.isDigit) :
    jsParseInt ds = some ((digitsToNat ds : Nat) : Int) := by
  rcases ds with _ | ⟨d, rest⟩
  · exact absurd rfl h1
  have hd := isDigit_ne_chars (h2 d (by simp))
  unfold jsParseInt
  rw [List.headD_cons, if_neg hd.2.1, if_neg hd.2.2.1,
    digits_parseDigits _ (by simp) h2]
  rfl

theorem jsParseInt_negSign (ds : Str) (h1 : ds ≠ []) (h2 : ∀ c ∈ ds, c.isDigit) :
    jsParseInt ('-' :: ds) = some (-((digitsToNat ds : Nat) : Int)) := by
  unfold jsParseInt
  rw [List.headD_cons, if_pos rfl]
  simp [digits_parseDigits ds h1 h2]

theorem jsParseInt_plusSign (ds : Str) (h1 : ds ≠ []) (h2 : ∀ c ∈ ds, c.isDigit) :
    jsParseInt ('+' :: ds) = some ((digitsToNat ds : Nat) : Int) := by
  unfold jsParseInt
  rw [List.headD_cons, if_neg (by decide), if_pos rfl]
  simp [digits_parseDigits ds h1 h2]

theorem convertTime_eval (hs ms : Str) (h m : Int)
    (hc : ∀ c ∈ hs, c ≠ ':') (mc : ∀ c ∈ ms, c ≠ ':')
    (hp : jsParseInt hs = some h) (mp : jsParseInt ms = some m) :
    convertTimeStringToMilliseconds (hs ++ ':' :: ms) =
      some (if (hs ++ ':' :: ms).headD ' ' = '-'
            then -(((h.natAbs : Int) * 60 + m) * 60000)
            else ((h.natAbs : Int) * 60 + m) * 60000) := by
  unfold convertTimeStringToMilliseconds
  rw [jsSplitOn_append ':' hs ms hc, jsSplitOn_nosep ':' ms mc]
  simp only [List.headD_cons, List.get?_cons_succ, List.get?_cons_zero, Option.getD_some]
  rw [hp, mp]

/-- Claim C4: for every offset string of the form optional leading minus sign,
one or two hour digits, a colon, and two minute digits,
`convertTimeStringToMilliseconds` (read in minutes, i.e. divided by 60000)
returns hours times 60 plus minutes, negated exactly when the minus sign is
present; in particular the offset strings `-04:00`, `05:30` and `00:00` parse
to -240, 330 and 0 minutes. -/
theorem claim_C4 :
    (∀ (neg : Bool) (hds mds : Str),
      hds ≠ [] → hds.length ≤ 2 → mds.length = 2 →
      (∀ c ∈ hds, c.isDigit) → (∀ c ∈ mds, c.isDigit) →
      convertTimeStringToMilliseconds ((if neg then ['-'] else []) ++ hds ++ ':' :: mds) =
        some ((if neg then -1 else 1) *
          ((digitsToNat hds : Int) * 60 + (digitsToNat mds : Int)) * 60000))
    ∧ convertTimeStringToMilliseconds (ofStr "-04:00") = some (-240 * 60000)
    ∧ convertTimeStringToMilliseconds (ofStr "05:30") = some (330 * 60000)
    ∧ convertTimeStringToMilliseconds (ofStr "00:00") = some (0 * 60000) := by
  refine ⟨?_, by decide, by decide, by decide⟩
  intro neg hds mds hne _ mlen hdig mdig
  have hcol : ∀ c ∈ hds, c ≠ ':' := fun c hc => (isDigit_ne_chars (hdig c hc)).1
  have mcol : ∀ c ∈ mds, c ≠ ':' := fun c hc => (isDigit_ne_chars (mdig c hc)).1
  have mne : mds ≠ [] := by
    intro h
    rw [h] at mlen
    simp at mlen
  cases neg with
  | false =>
    rw [if_neg (by simp), List.nil_append,
      convertTime_eval hds mds _ _ hcol mcol
        (jsParseInt_digits hds hne hdig) (jsParseInt_digits mds mne mdig)]
    rcases hds with _ | ⟨d, rest⟩
    · exact absurd rfl hne
    have hd := isDigit_ne_chars (hdig d (by simp))
    rw [List.cons_append, List.headD_cons, if_neg hd.2.1]
    simp
  | true =>
    have : (['-'] ++ hds ++ ':' :: mds) = ('-' :: hds) ++ ':' :: mds := by simp
    rw [if_pos rfl, this,
      convertTime_eval ('-' :: hds) mds _ _
        (by
          intro c hc
          rcases List.mem_cons.mp hc with h | h
          · subst h; decide
          · exact hcol c h)
        mcol (jsParseInt_negSign hds hne hdig) (jsParseInt_digits mds mne mdig)]
    rw [List.cons_append, List.headD_cons, if_pos rfl]
    simp
    ring

/-- Claim C9: `convertTimeStringToMilliseconds` also accepts offset strings
with a leading plus sign: prefixing a sign-free well-formed offset string
with `+` parses to the same (positive) value. -/
theorem claim_C9 (hds mds : Str) (hne : hds ≠ []) (hlen : hds.length ≤ 2)
    (mlen : mds.length = 2)
    (hdig : ∀ c ∈ hds, c.isDigit) (mdig : ∀ c ∈ mds, c.isDigit) :
    convertTimeStringToMilliseconds ('+' :: (hds ++ ':' :: mds)) =
      convertTimeStringToMilliseconds (hds ++ ':' :: mds) := by
  have hcol : ∀ c ∈ hds, c ≠ ':' := fun c hc => (isDigit_ne_chars (hdig c hc)).1
  have mcol : ∀ c ∈ mds, c ≠ ':' := fun c hc => (isDigit_ne_chars (mdig c hc)).1
  have mne : mds ≠ [] := by
    intro h
    rw [h] at mlen
    simp at mlen
  have hplus : ('+' :: (hds ++ ':' :: mds)) = ('+' :: hds) ++ ':' :: mds := by simp
  rw [hplus,
    convertTime_eval ('+' :: hds) mds _ _
      (by
        intro c hc
        rcases List.mem_cons.mp hc with h | h
        · subst h; decide
        · exact hcol c h)
      mcol (jsParseInt_plusSign hds hne hdig) (jsParseInt_digits mds mne mdig),
    convertTime_eval hds mds _ _ hcol mcol
      (jsParseInt_digits hds hne hdig) (jsParseInt_digits mds mne mdig)]
  rcases hds with _ | ⟨d, rest⟩
  · exact absurd rfl hne
  have hd := isDigit_ne_chars (hdig d (by simp))
  rw [List.cons_append, List.headD_cons, if_neg (by decide),
    List.cons_append, List.headD_cons, if_neg hd.2.1]

/-- Witness for claim C9 at the offset string `09:00`. -/
theorem claim_C9_witness :
    convertTimeStringToMilliseconds ('+' :: (ofStr "09" ++ ':' :: ofStr "00")) =
      convertTimeStringToMilliseconds (ofStr "09" ++ ':' :: ofStr "00") :=
  claim_C9 (ofStr "09") (ofStr "00") (by decide) (by decide) (by decide)
    (by decide) (by decide)

/-- Witness for claim C4: the quantified part evaluated at `-7:05`. -/
theorem claim_C4_witness :
    convertTimeStringToMilliseconds ((if true then ['-'] else []) ++ ofStr "7" ++ ':' :: ofStr "05") =
      some ((if true then -1 else 1) *
        ((digitsToNat (ofStr "7") : Int) * 60 + (digitsToNat (ofStr "05") : Int)) * 60000) :=
  claim_C4.1 true (ofStr "7") (ofStr "05") (by decide) (by decide) (by decide)
    (by decide) (by decide)

theorem convertTime_dvd (s : Str) (v : Int)
    (h : convertTimeStringToMilliseconds s = some v) : (60000 : Int) ∣ v := by
  unfold convertTimeStringToMilliseconds at h
  dsimp only at h
  split at h
  · rw [Option.some_inj] at h
    split_ifs at h <;> omega
  · exact absurd h (by simp)

theorem hm_of_minutes (T : Int) (hd : (60000 : Int) ∣ T) :
    0 ≤ (getHoursAndMinutesFromMilliseconds T).hours ∧
    (getHoursAndMinutesFromMilliseconds T).hours ≤ 23 ∧
    0 ≤ (getHoursAndMinutesFromMilliseconds T).minutes ∧
    (getHoursAndMinutesFromMilliseconds T).minutes ≤ 59 ∧
    (getHoursAndMinutesFromMilliseconds T).hours * 60 +
      (getHoursAndMinutesFromMilliseconds T).minutes = T / 60000 % 1440 := by
  obtain ⟨d, rfl⟩ := hd
  unfold getHoursAndMinutesFromMilliseconds
  simp only
  omega

theorem convertWallClock_eq (o t : TimezoneRecord) (mo mt : Int)
    (ho : convertTimeStringToMilliseconds o.utc_offset = some mo)
    (ht : convertTimeStringToMilliseconds t.utc_offset = some mt) (x : Int) :
    convertWallClock o t x = some (getHoursAndMinutesFromMilliseconds (mt - mo + x)) := by
  unfold convertWallClock findTimeAtTargetTZ getTimeDifference
  rw [ho, ht]
  rfl

/-- Claim C1: for records whose `utc_offset` strings parse, and every integer
origin time-of-day (in minutes, passed as milliseconds), the composition of
`findTimeAtTargetTZ` with `getHoursAndMinutesFromMilliseconds` yields the
origin time plus the offset delta reduced modulo 24 hours, with hours in
[0,23] and minutes in [0,59], including for negative and multi-day
intermediate results. -/
theorem claim_C1 (o t : TimezoneRecord) (mo mt : Int)
    (ho : convertTimeStringToMilliseconds o.utc_offset = some mo)
    (ht : convertTimeStringToMilliseconds t.utc_offset = some mt) (m : Int) :
    ∃ hm, convertWallClock o t (m * 60000) = some hm ∧
      0 ≤ hm.hours ∧ hm.hours ≤ 23 ∧ 0 ≤ hm.minutes ∧ hm.minutes ≤ 59 ∧
      hm.hours * 60 + hm.minutes = (m + (mt - mo) / 60000) % 1440 := by
  have d1 := convertTime_dvd _ _ ho
  have d2 := convertTime_dvd _ _ ht
  have hdvd : (60000 : Int) ∣ (mt - mo + m * 60000) := by omega
  have h5 := hm_of_minutes _ hdvd
  refine ⟨_, convertWallClock_eq o t mo mt ho ht _,
    h5.1, h5.2.1, h5.2.2.1, h5.2.2.2.1, ?_⟩
  have heq := h5.2.2.2.2
  omega

/-- Witness for claim C1 with offsets `00:00` and `01:00` at origin minute
-100. -/
theorem claim_C1_witness :
    ∃ hm, convertWallClock ⟨ofStr "00:00"⟩ ⟨ofStr "01:00"⟩ (-100 * 60000) = some hm ∧
      0 ≤ hm.hours ∧ hm.hours ≤ 23 ∧ 0 ≤ hm.minutes ∧ hm.minutes ≤ 59 ∧
      hm.hours * 60 + hm.minutes = (-100 + ((3600000 : Int) - 0) / 60000) % 1440 :=
  claim_C1 ⟨ofStr "00:00"⟩ ⟨ofStr "01:00"⟩ 0 3600000 (by decide) (by decide) (-100)

/-- Claim C2: for any minute-of-day in [0,1439] and records whose offset
delta lies in [-720,720] minutes, converting origin to target and feeding the
wrapped result back through the converter with the two records swapped
returns the original time-of-day. -/
theorem claim_C2 (o t : TimezoneRecord) (mo mt μ : Int)
    (ho : convertTimeStringToMilliseconds o.utc_offset = some mo)
    (ht : convertTimeStringToMilliseconds t.utc_offset = some mt)
    (hμ0 : 0 ≤ μ) (hμ1 : μ ≤ 1439)
    (hδ0 : -720 ≤ (mt - mo) / 60000) (hδ1 : (mt - mo) / 60000 ≤ 720) :
    ∃ hm hm2, convertWallClock o t (μ * 60000) = some hm ∧
      convertWallClock t o ((hm.hours * 60 + hm.minutes) * 60000) = some hm2 ∧
      hm2.hours * 60 + hm2.minutes = μ := by
  have d1 := convertTime_dvd _ _ ho
  have d2 := convertTime_dvd _ _ ht
  refine ⟨_, _, convertWallClock_eq o t mo mt ho ht _,
    convertWallClock_eq t o mt mo ht ho _, ?_⟩
  have k1 := hm_of_minutes (mt - mo + μ * 60000) (by omega)
  have hμ1v := k1.2.2.2.2
  have k2 := hm_of_minutes (mo - mt +
    ((getHoursAndMinutesFromMilliseconds (mt - mo + μ * 60000)).hours * 60 +
      (getHoursAndMinutesFromMilliseconds (mt - mo + μ * 60000)).minutes) * 60000)
    (by omega)
  have hμ2v := k2.2.2.2.2
  omega

/-- Witness for claim C2 with offsets `00:00` and `01:00` at origin minute
30. -/
theorem claim_C2_witness :
    ∃ hm hm2, convertWallClock ⟨ofStr "00:00"⟩ ⟨ofStr "01:00"⟩ (30 * 60000) = some hm ∧
      convertWallClock ⟨ofStr "01:00"⟩ ⟨ofStr "00:00"⟩
        ((hm.hours * 60 + hm.minutes) * 60000) = some hm2 ∧
      hm2.hours * 60 + hm2.minutes = 30 :=
  claim_C2 ⟨ofStr "00:00"⟩ ⟨ofStr "01:00"⟩ 0 3600000 30 (by decide) (by decide)
    (by decide) (by decide) (by decide) (by decide)

/-- Claim C8: the full pipeline (parse offsets, add the delta to the origin
time, wrap modulo 24 hours, format in 12-hour form) on the two end-to-end
scenarios of the spec: `-05:00` to `+09:00` at 09:00 displays `11:00 PM`, and
`+01:00` to `-08:00` at 02:00 displays `05:00 PM`. -/
theorem claim_C8 :
    updateTimeOutputString ⟨ofStr "-05:00"⟩ ⟨ofStr "+09:00"⟩ (ofStr "09:00") =
      some (ofStr "11:00 PM") ∧
    updateTimeOutputString ⟨ofStr "+01:00"⟩ ⟨ofStr "-08:00"⟩ (ofStr "02:00") =
      some (ofStr "05:00 PM") := by
  exact ⟨by decide, by decide⟩

theorem padTwo_parse : ∀ n : Nat, n < 100 → jsParseInt (padTwoSpec n) = some (n : Int) := by
  decide

theorem natToChars_parse : ∀ n : Nat, n < 100 → jsParseInt (natToChars n) = some (n : Int) := by
  decide

theorem pad2_eq : ∀ n : Nat, n < 100 → padNumWithZeros (n : Int) (some 2) = padTwoSpec n := by
  decide

theorem padNone_eq : ∀ n : Nat, n < 100 → 10 ≤ n →
    padNumWithZeros (n : Int) none = padTwoSpec n := by
  decide

theorem padTwo_chars : ∀ n : Nat, n < 100 → ∀ c ∈ padTwoSpec n, c ≠ ':' ∧ c ≠ ' ' := by
  decide

theorem natToChars_chars : ∀ n : Nat, n < 100 → ∀ c ∈ natToChars n, c ≠ ':' ∧ c ≠ ' ' := by
  decide

theorem padTwo_len : ∀ n : Nat, n < 100 → (padTwoSpec n).length = 2 := by
  decide

theorem convert24_eval (hs ms : Str) (h m : Int)
    (hc : ∀ c ∈ hs, c ≠ ':') (mc : ∀ c ∈ ms, c ≠ ':')
    (hp : jsParseInt hs = some h) (mp : jsParseInt ms = some m) :
    convert24HourTimeStringTo12Hour (hs ++ ':' :: ms) =
      some ((if (if h < 12 then h else h - 12) = 0 then ofStr "12"
             else padNumWithZeros (if h < 12 then h else h - 12) (some 2)) ++ ':' ::
            padNumWithZeros m (some 2) ++ ' ' ::
            (if h < 12 then ofStr "AM" else ofStr "PM")) := by
  unfold convert24HourTimeStringTo12Hour
  rw [jsSplitOn_append ':' hs ms hc, jsSplitOn_nosep ':' ms mc]
  simp only [List.headD_cons, List.get?_cons_succ, List.get?_cons_zero, Option.getD_some]
  rw [hp, mp]

theorem append_fields_congr (A A1 B B1 C C1 : Str) (sep1 sep2 : Char)
    (ha : A = A1) (hb : B = B1) (hcq : C = C1) :
    A ++ sep1 :: B ++ sep2 :: C = A1 ++ sep1 :: B1 ++ sep2 :: C1 := by
  rw [ha, hb, hcq]

theorem format12_eq (h m : Nat) (hh : h < 24) (hmb : m < 60) (hs ms : Str)
    (hc : ∀ c ∈ hs, c ≠ ':') (mc : ∀ c ∈ ms, c ≠ ':')
    (hp : jsParseInt hs = some (h : Int)) (mp : jsParseInt ms = some (m : Int)) :
    convert24HourTimeStringTo12Hour (hs ++ ':' :: ms) = some (specFormatTo12Hour h m) := by
  rw [convert24_eval hs ms _ _ hc mc hp mp]
  unfold specFormatTo12Hour
  refine congrArg some (append_fields_congr _ _ _ _ _ _ ':' ' ' ?_ (pad2_eq m (by omega)) ?_)
  · by_cases h12 : h < 12
    · have h12i : (h : Int) < 12 := by exact_mod_cast h12
      rw [if_pos h12i]
      by_cases h0 : h = 0
      · subst h0
        rw [if_pos rfl, if_pos (by norm_num)]
        decide
      · have h0i : (h : Int) ≠ 0 := by exact_mod_cast h0
        rw [if_neg h0i, if_neg h0, if_pos (by omega), pad2_eq h (by omega)]
    · have h12i : ¬((h : Int) < 12) := by exact_mod_cast h12
      rw [if_neg h12i]
      by_cases h0 : h = 12
      · subst h0
        rw [if_pos (by norm_num), if_neg (by omega), if_pos (by omega)]
        decide
      · have hcast : (h : Int) - 12 = ((h - 12 : Nat) : Int) := by omega
        have e1 : ¬(((h - 12 : Nat) : Int) = 0) := by omega
        have e2 : ¬(h = 0) := by omega
        have e3 : ¬(h ≤ 12) := by omega
        rw [hcast, if_neg e1, if_neg e2, if_neg e3, pad2_eq (h - 12) (by omega)]
  · by_cases h12 : h < 12
    · have h12i : (h : Int) < 12 := by exact_mod_cast h12
      rw [if_pos h12i, if_pos h12]
    · have h12i : ¬((h : Int) < 12) := by exact_mod_cast h12
      rw [if_neg h12i, if_neg h12]

/-- Claim C6: on every zero-padded 24-hour input with hour in [0,23] and
minute in [0,59], `convert24HourTimeStringTo12Hour` produces `HH:MM AM|PM`
with both fields zero-padded to two digits, hour 0 rendered as 12 AM, hour
12 as 12 PM, hours 1-11 unchanged with AM and hours 13-23 minus twelve with
PM; in particular 00:00, 12:00 and 23:59 render as 12:00 AM, 12:00 PM and
11:59 PM. -/
theorem claim_C6 :
    (∀ (h : Fin 24) (m : Fin 60),
      convert24HourTimeStringTo12Hour (mk24String h.val m.val) =
        some (specFormatTo12Hour h.val m.val))
    ∧ convert24HourTimeStringTo12Hour (mk24String 0 0) = some (ofStr "12:00 AM")
    ∧ convert24HourTimeStringTo12Hour (mk24String 12 0) = some (ofStr "12:00 PM")
    ∧ convert24HourTimeStringTo12Hour (mk24String 23 59) = some (ofStr "11:59 PM") := by
  refine ⟨?_, by decide, by decide, by decide⟩
  intro h m
  exact format12_eq h.val m.val h.isLt m.isLt (padTwoSpec h.val) (padTwoSpec m.val)
    (fun c hcm => (padTwo_chars h.val (by omega) c hcm).1)
    (fun c hcm => (padTwo_chars m.val (by omega) c hcm).1)
    (padTwo_parse h.val (by omega)) (padTwo_parse m.val (by omega))

theorem convert12_eval (hs ms pd : Str) (h m : Int)
    (hsp : ∀ c ∈ hs, c ≠ ' ') (hcc : ∀ c ∈ hs, c ≠ ':')
    (msp : ∀ c ∈ ms, c ≠ ' ') (mcc : ∀ c ∈ ms, c ≠ ':')
    (pdsp : ∀ c ∈ pd, c ≠ ' ')
    (hp : jsParseInt hs = some h) (mp : jsParseInt ms = some m) :
    convert12HourTimeStringTo24Hour (hs ++ ':' :: ms ++ ' ' :: pd) =
      some (if pd = ofStr "AM" then
              (if h = 12 then ofStr "00" ++ ':' :: padNumWithZeros m (some 2)
               else hs ++ ':' :: ms)
            else (if h = 12 then ofStr "12" else padNumWithZeros (h + 12) none) ++ ':' ::
              padNumWithZeros m (some 2)) := by
  have hshape : hs ++ ':' :: ms ++ ' ' :: pd = (hs ++ ':' :: ms) ++ ' ' :: pd := by
    simp
  have hbare : ∀ c ∈ hs ++ ':' :: ms, c ≠ ' ' := by
    intro c hcm
    rcases List.mem_append.mp hcm with hcm | hcm
    · exact hsp c hcm
    · rcases List.mem_cons.mp hcm with hcm | hcm
      · subst hcm; decide
      · exact msp c hcm
  unfold convert12HourTimeStringTo24Hour
  rw [hshape, jsSplitOn_append ' ' _ pd hbare, jsSplitOn_nosep ' ' pd pdsp]
  simp only [List.headD_cons, List.get?_cons_succ, List.get?_cons_zero, Option.getD_some]
  rw [jsSplitOn_append ':' hs ms hcc, jsSplitOn_nosep ':' ms mcc]
  simp only [List.headD_cons, List.get?_cons_succ, List.get?_cons_zero, Option.getD_some]
  rw [hp, mp]
  dsimp only
  by_cases hpd : pd = ofStr "AM"
  · rw [if_pos hpd, if_pos (show (some pd : Option Str) = some (ofStr "AM") by rw [hpd])]
  · rw [if_neg hpd,
      if_neg (show ¬(some pd : Option Str) = some (ofStr "AM") from
        fun hq => hpd (Option.some_inj.mp hq))]

theorem parse12_eq (h m : Nat) (h1 : 1 ≤ h) (h2 : h ≤ 12) (hmb : m < 60) (isPM : Bool) :
    convert12HourTimeStringTo24Hour (mk12String h m isPM) =
      some (specParseFrom12Hour h m isPM) := by
  have base := convert12_eval (padTwoSpec h) (padTwoSpec m)
    (if isPM then ofStr "PM" else ofStr "AM") (h : Int) (m : Int)
    (fun c hcm => (padTwo_chars h (by omega) c hcm).2)
    (fun c hcm => (padTwo_chars h (by omega) c hcm).1)
    (fun c hcm => (padTwo_chars m (by omega) c hcm).2)
    (fun c hcm => (padTwo_chars m (by omega) c hcm).1)
    (by cases isPM <;> decide)
    (padTwo_parse h (by omega)) (padTwo_parse m (by omega))
  unfold mk12String at base ⊢
  rw [base]
  unfold specParseFrom12Hour
  cases isPM with
  | false =>
    rw [if_pos (by decide), pad2_eq m (by omega)]
    by_cases h12 : h = 12
    · subst h12
      have hi : ((12 : Nat) : Int) = 12 := by norm_num
      have hz : ofStr "00" = padTwoSpec 0 := by decide
      rw [if_pos hi, if_neg (by decide), if_pos rfl, hz]
    · have hi : ¬((h : Nat) : Int) = 12 := by exact_mod_cast h12
      rw [if_neg hi, if_neg (by decide), if_neg h12]
  | true =>
    rw [if_neg (by decide), pad2_eq m (by omega)]
    by_cases h12 : h = 12
    · subst h12
      have hi : ((12 : Nat) : Int) = 12 := by norm_num
      have hz : ofStr "12" = padTwoSpec 12 := by decide
      rw [if_pos hi, if_pos (by decide), if_pos rfl, hz]
    · have hi : ¬((h : Nat) : Int) = 12 := by exact_mod_cast h12
      have hcast : (h : Int) + 12 = ((h + 12 : Nat) : Int) := by omega
      rw [if_neg hi, if_pos (by decide), if_neg h12, hcast,
        padNone_eq (h + 12) (by omega) (by omega)]

theorem specFormat_as_mk12 (h m : Nat) :
    specFormatTo12Hour h m =
      mk12String (if h = 0 then 12 else if h ≤ 12 then h else h - 12) m
        (!decide (h < 12)) := by
  unfold specFormatTo12Hour mk12String
  by_cases h12 : h < 12 <;> simp [h12]

theorem roundtrip_24 (h m : Nat) (hh : h < 24) (hmb : m < 60) :
    (convert24HourTimeStringTo12Hour (mk24String h m)).bind
      convert12HourTimeStringTo24Hour = some (mk24String h m) := by
  have f := format12_eq h m hh hmb (padTwoSpec h) (padTwoSpec m)
    (fun c hcm => (padTwo_chars h (by omega) c hcm).1)
    (fun c hcm => (padTwo_chars m (by omega) c hcm).1)
    (padTwo_parse h (by omega)) (padTwo_parse m (by omega))
  unfold mk24String
  rw [f]
  show convert12HourTimeStringTo24Hour (specFormatTo12Hour h m) =
    some (padTwoSpec h ++ ':' :: padTwoSpec m)
  rw [specFormat_as_mk12 h m,
    parse12_eq _ m (by split_ifs <;> omega) (by split_ifs <;> omega) hmb _]
  unfold specParseFrom12Hour
  have hval : (if (!decide (h < 12)) = true then
      (if (if h = 0 then 12 else if h ≤ 12 then h else h - 12) = 12 then 12
       else (if h = 0 then 12 else if h ≤ 12 then h else h - 12) + 12)
    else
      (if (if h = 0 then 12 else if h ≤ 12 then h else h - 12) = 12 then 0
       else (if h = 0 then 12 else if h ≤ 12 then h else h - 12))) = h := by
    rcases Nat.lt_or_ge h 12 with h12 | h12
    · have hb : (!decide (h < 12)) = false := by simp [h12]
      rw [hb, if_neg (by simp)]
      split_ifs <;> omega
    · have hb : (!decide (h < 12)) = true := by simp [Nat.not_lt.mpr h12]
      rw [hb, if_pos rfl]
      split_ifs <;> omega
  rw [hval]

/-- Claim C7: `convert12HourTimeStringTo24Hour` inverts
`convert24HourTimeStringTo12Hour`: on canonical two-digit 12-hour inputs it
maps 12 AM to hour 00, other AM hours unchanged, 12 PM to 12 and other PM
hours to hour+12 with two-digit zero-padded output; composing format then
parse on any valid 24-hour time returns the original zero-padded string, and
`12:00 AM` parses back to `00:00`. -/
theorem claim_C7 :
    (∀ (i : Fin 12) (m : Fin 60) (isPM : Bool),
      convert12HourTimeStringTo24Hour (mk12String (i.val + 1) m.val isPM) =
        some (specParseFrom12Hour (i.val + 1) m.val isPM))
    ∧ (∀ (h : Fin 24) (m : Fin 60),
      (convert24HourTimeStringTo12Hour (mk24String h.val m.val)).bind
        convert12HourTimeStringTo24Hour = some (mk24String h.val m.val))
    ∧ convert12HourTimeStringTo24Hour (ofStr "12:00 AM") = some (ofStr "00:00") := by
  refine ⟨?_, ?_, by decide⟩
  · intro i m isPM
    exact parse12_eq (i.val + 1) m.val (by omega) (by omega) m.isLt isPM
  · intro h m
    exact roundtrip_24 h.val m.val h.isLt m.isLt

/-- Claim C10: `convert24HourTimeStringTo12Hour` is insensitive to
zero-padding of its input (the unpadded `h:m` template produced by
`updateTimeOutput` gives the same result as the padded `HH:MM` form), and its
output always carries two-digit hour and minute fields (an 8-character
`HH:MM AM|PM` string). -/
theorem claim_C10 (h : Fin 24) (m : Fin 60) :
    convert24HourTimeStringTo12Hour (natToChars h.val ++ ':' :: natToChars m.val) =
      convert24HourTimeStringTo12Hour (mk24String h.val m.val) ∧
    convert24HourTimeStringTo12Hour (natToChars h.val ++ ':' :: natToChars m.val) =
      some (specFormatTo12Hour h.val m.val) ∧
    (specFormatTo12Hour h.val m.val).length = 8 := by
  have f1 := format12_eq h.val m.val h.isLt m.isLt (natToChars h.val) (natToChars m.val)
    (fun c hcm => (natToChars_chars h.val (by omega) c hcm).1)
    (fun c hcm => (natToChars_chars m.val (by omega) c hcm).1)
    (natToChars_parse h.val (by omega)) (natToChars_parse m.val (by omega))
  have f2 := format12_eq h.val m.val h.isLt m.isLt (padTwoSpec h.val) (padTwoSpec m.val)
    (fun c hcm => (padTwo_chars h.val (by omega) c hcm).1)
    (fun c hcm => (padTwo_chars m.val (by omega) c hcm).1)
    (padTwo_parse h.val (by omega)) (padTwo_parse m.val (by omega))
  refine ⟨?_, f1, ?_⟩
  · rw [f1]
    unfold mk24String
    rw [f2]
  · have l1 := padTwo_len (if h.val = 0 then 12 else if h.val ≤ 12 then h.val else h.val - 12)
      (by split_ifs <;> omega)
    have l2 := padTwo_len m.val (by omega)
    unfold specFormatTo12Hour
    by_cases h12 : h.val < 12 <;>
      simp [h12, l1, l2, ofStr]

/-- The value stored under one area: locations mapped to region lists, in
key-insertion order. -/
abbrev LocationMap : Type := List (Str × List Str)

/-- The `GROUPED_TIMEZONES_LOCALES` object: areas mapped to location maps,
in key-insertion order. -/
abbrev Catalog : Type := List (Str × LocationMap)

/-- Property read `obj[key]` on a JS object modelled as an association
list. -/
def alistGet {β : Type} (k : Str) : List (Str × β) → Option β
  | [] => none
  | (k1, v) :: rest => if k1 = k then some v else alistGet k rest

/-- In-place update of the value stored under an existing key. -/
def alistSet {β : Type} (k : Str) (f : β → β) : List (Str × β) → List (Str × β)
  | [] => []
  | (k1, v) :: rest => if k1 = k then (k1, f v) :: rest else (k1, v) :: alistSet k f rest

/-- The two-level read `catalog[area]?.[location]`. -/
def alistGet2 (cat : Catalog) (area location : Str) : Option (List Str) :=
  match alistGet area cat with
  | none => none
  | some m => alistGet location m

/-- JS coerces a missing (`undefined`) component used as a property key to
the string `"undefined"`. -/
def jsKey : Option Str → Str
  | some s => s
  | none => ofStr "undefined"

/-- JS truthiness of an optional string: `undefined` and the empty string are
falsy. -/
def truthy : Option Str → Bool
  | some s => !s.isEmpty
  | none => false

/-- `getSubComponentValuesOfLocale`: destructures up to three locale
components; with a region, returns `[]` when the region is in the location's
list and `null` otherwise; with a location, returns the stored region list or
`null`; with only an area, returns the area's location keys or `null`. -/
def getSubComponentValuesOfLocale (cat : Catalog) (localeComponents : List Str) :
    Option (List Str) :=
  let area := localeComponents.get? 0
  let location := localeComponents.get? 1
  let region := localeComponents.get? 2
  if truthy region then
    match alistGet (jsKey area) cat with
    | none => none
    | some m =>
      match alistGet (jsKey location) m with
      | none => none
      | some rs => if jsKey region ∈ rs then some [] else none
  else if truthy location then
    match alistGet (jsKey area) cat with
    | none => none
    | some m => alistGet (jsKey location) m
  else
    match alistGet (jsKey area) cat with
    | none => none
    | some m => some (m.map Prod.fst)

/-- The loop body of `loadTimezoneLocales` for one zone path string: ensure
the area key exists, stop for one-component paths, ensure the location key
exists, and append the region (when present and truthy) to the location's
list. -/
def addZone (cat : Catalog) (zone : Str) : Catalog :=
  let zoneComponents := jsSplitOn '/' zone
  let area := zoneComponents.headD []
  let cat1 := if (alistGet area cat).isSome then cat else cat ++ [(area, [])]
  if zoneComponents.length = 1 then cat1
  else
    let location := (zoneComponents.get? 1).getD []
    let region : Option Str :=
      if zoneComponents.length = 3 then zoneComponents.get? 2 else none
    let cat2 := if (alistGet2 cat1 area location).isSome then cat1
      else alistSet area (fun m => m ++ [(location, [])]) cat1
    if truthy region then
      alistSet area (alistSet location (fun rs => rs ++ [jsKey region])) cat2
    else cat2

/-- `loadTimezoneLocales`: fold the zone list into the grouped catalog,
starting from the empty object. -/
def loadTimezoneLocales (zones : List Str) : Catalog :=
  zones.foldl addZone []

/-- The component list of one zone path. -/
def zoneComps (z : Str) : List Str := jsSplitOn '/' z

/-- The area component of one zone path. -/
def zoneArea (z : Str) : Str := (zoneComps z).headD []

/-- A well-formed zone path: at most three slash-delimited components, all
nonempty. -/
def WFzone (z : Str) : Prop :=
  (zoneComps z).length ≤ 3 ∧ ∀ c ∈ zoneComps z, c ≠ []

/-- The regions of the three-component paths for a given area and location,
in source order, duplicates kept. -/
def regionsOf (zones : List Str) (a l : Str) : List Str :=
  zones.filterMap (fun z =>
    match zoneComps z with
    | [a1, l1, r] => if a1 = a ∧ l1 = l then some r else none
    | _ => none)

/-- Whether some zone path has the given area and location as its first two
components. -/
def hasLocB (zones : List Str) (a l : Str) : Bool :=
  zones.any (fun z =>
    match zoneComps z with
    | a1 :: l1 :: _ => decide (a1 = a ∧ l1 = l)
    | _ => false)

theorem truthy_some_ne (s : Str) (h : s ≠ []) : truthy (some s) = true := by
  rcases s with _ | ⟨c, cs⟩
  · exact absurd rfl h
  · rfl

theorem getSub_one (cat : Catalog) (a : Str) :
    getSubComponentValuesOfLocale cat [a] =
      match alistGet a cat with
      | none => none
      | some m => some (m.map Prod.fst) := rfl

theorem getSub_two (cat : Catalog) (a l : Str) (hl : l ≠ []) :
    getSubComponentValuesOfLocale cat [a, l] = alistGet2 cat a l := by
  unfold getSubComponentValuesOfLocale alistGet2
  simp only [List.get?_cons_zero, List.get?_cons_succ, List.get?_nil]
  rw [if_neg (by simp [truthy]), if_pos (by rw [truthy_some_ne l hl])]
  simp only [jsKey]

theorem getSub_three (cat : Catalog) (a l r : Str) (hr : r ≠ []) :
    getSubComponentValuesOfLocale cat [a, l, r] =
      match alistGet2 cat a l with
      | none => none
      | some rs => if r ∈ rs then some [] else none := by
  unfold getSubComponentValuesOfLocale alistGet2
  simp only [List.get?_cons_zero, List.get?_cons_succ, List.get?_nil]
  rw [if_pos (by rw [truthy_some_ne r hr])]
  simp only [jsKey]
  cases halg : alistGet a cat with
  | none => rfl
  | some m => cases alistGet l m <;> rfl

/-- Claim C3: for every catalog and every partial path of one to three
nonempty components, `getSubComponentValuesOfLocale` has a three-way outcome:
`none` exactly when a component is unknown at its level, the list of valid
next-level choices when the selection is known, and `some []` for a complete
leaf (known area with no locations, known location with no regions, or a
valid full path); invalid (`none`) is never conflated with the complete leaf
(`some []`). -/
theorem claim_C3 (cat : Catalog) (a l r : Str)
    (ha : a ≠ []) (hl : l ≠ []) (hr : r ≠ []) :
    (getSubComponentValuesOfLocale cat [a] = none ↔ alistGet a cat = none)
    ∧ (∀ m, alistGet a cat = some m →
        getSubComponentValuesOfLocale cat [a] = some (m.map Prod.fst))
    ∧ (getSubComponentValuesOfLocale cat [a, l] = none ↔ alistGet2 cat a l = none)
    ∧ (∀ rs, alistGet2 cat a l = some rs →
        getSubComponentValuesOfLocale cat [a, l] = some rs)
    ∧ (getSubComponentValuesOfLocale cat [a, l, r] = none ↔
        ¬ ∃ rs, alistGet2 cat a l = some rs ∧ r ∈ rs)
    ∧ (∀ rs, alistGet2 cat a l = some rs → r ∈ rs →
        getSubComponentValuesOfLocale cat [a, l, r] = some []) := by
  refine ⟨?_, ?_, ?_, ?_, ?_, ?_⟩
  · rw [getSub_one]
    cases alistGet a cat <;> simp
  · intro m hmq
    rw [getSub_one, hmq]
  · rw [getSub_two cat a l hl]
  · intro rs hrs
    rw [getSub_two cat a l hl, hrs]
  · rw [getSub_three cat a l r hr]
    cases h2 : alistGet2 cat a l with
    | none => simp
    | some rs =>
      by_cases hmem : r ∈ rs
      · simp [hmem]
      · simp [hmem]
  · intro rs hrs hmem
    rw [getSub_three cat a l r hr, hrs]
    simp [hmem]

/-- Witness for claim C3 on a one-entry catalog. -/
theorem claim_C3_witness :
    (getSubComponentValuesOfLocale [(ofStr "America", [(ofStr "Argentina",
        [ofStr "Buenos_Aires"])])] [ofStr "America"] = none ↔
      alistGet (ofStr "America") [(ofStr "America", [(ofStr "Argentina",
        [ofStr "Buenos_Aires"])])] = none)
    ∧ (∀ m, alistGet (ofStr "America") [(ofStr "America", [(ofStr "Argentina",
        [ofStr "Buenos_Aires"])])] = some m →
        getSubComponentValuesOfLocale [(ofStr "America", [(ofStr "Argentina",
          [ofStr "Buenos_Aires"])])] [ofStr "America"] = some (m.map Prod.fst))
    ∧ (getSubComponentValuesOfLocale [(ofStr "America", [(ofStr "Argentina",
        [ofStr "Buenos_Aires"])])] [ofStr "America", ofStr "Argentina"] = none ↔
      alistGet2 [(ofStr "America", [(ofStr "Argentina", [ofStr "Buenos_Aires"])])]
        (ofStr "America") (ofStr "Argentina") = none)
    ∧ (∀ rs, alistGet2 [(ofStr "America", [(ofStr "Argentina", [ofStr "Buenos_Aires"])])]
        (ofStr "America") (ofStr "Argentina") = some rs →
        getSubComponentValuesOfLocale [(ofStr "America", [(ofStr "Argentina",
          [ofStr "Buenos_Aires"])])] [ofStr "America", ofStr "Argentina"] = some rs)
    ∧ (getSubComponentValuesOfLocale [(ofStr "America", [(ofStr "Argentina",
        [ofStr "Buenos_Aires"])])]
        [ofStr "America", ofStr "Argentina", ofStr "Buenos_Aires"] = none ↔
      ¬ ∃ rs, alistGet2 [(ofStr "America", [(ofStr "Argentina", [ofStr "Buenos_Aires"])])]
        (ofStr "America") (ofStr "Argentina") = some rs ∧ ofStr "Buenos_Aires" ∈ rs)
    ∧ (∀ rs, alistGet2 [(ofStr "America", [(ofStr "Argentina", [ofStr "Buenos_Aires"])])]
        (ofStr "America") (ofStr "Argentina") = some rs → ofStr "Buenos_Aires" ∈ rs →
        getSubComponentValuesOfLocale [(ofStr "America", [(ofStr "Argentina",
          [ofStr "Buenos_Aires"])])]
          [ofStr "America", ofStr "Argentina", ofStr "Buenos_Aires"] = some []) :=
  claim_C3 [(ofStr "America", [(ofStr "Argentina", [ofStr "Buenos_Aires"])])]
    (ofStr "America") (ofStr "Argentina") (ofStr "Buenos_Aires")
    (by decide) (by decide) (by decide)

theorem alistGet_append {β : Type} (k : Str) (m1 m2 : List (Str × β)) :
    alistGet k (m1 ++ m2) =
      match alistGet k m1 with
      | some v => some v
      | none => alistGet k m2 := by
  induction m1 with
  | nil => rfl
  | cons p rest ih =>
    obtain ⟨k1, v⟩ := p
    by_cases hq : k1 = k
    · simp [alistGet, hq]
    · simp [alistGet, hq, ih]

theorem alistGet_set {β : Type} (k k1 : Str) (f : β → β) (m : List (Str × β)) :
    alistGet k (alistSet k1 f m) =
      if k1 = k then (alistGet k m).map f else alistGet k m := by
  induction m with
  | nil =>
    by_cases hq : k1 = k <;> simp [alistSet, alistGet, hq]
  | cons p rest ih =>
    obtain ⟨k2, v⟩ := p
    by_cases h2 : k2 = k1
    · subst h2
      by_cases hk : k2 = k <;> simp [alistSet, alistGet, hk]
    · by_cases hk : k2 = k
      · have hk1 : ¬k1 = k := fun hq => h2 (by rw [hk, hq])
        have hk1b : ¬k = k1 := fun hq => hk1 hq.symm
        simp [alistSet, alistGet, h2, hk, hk1, hk1b]
      · simp [alistSet, alistGet, h2, hk, ih]

theorem ensureArea_isSome (cat : Catalog) (a0 : Str) :
    (alistGet a0 (if (alistGet a0 cat).isSome then cat
      else cat ++ [(a0, [])])).isSome := by
  by_cases hq : (alistGet a0 cat).isSome
  · rw [if_pos hq]
    exact hq
  · rw [if_neg hq, alistGet_append]
    cases hga : alistGet a0 cat with
    | some m => simp
    | none => simp [alistGet]

theorem alistGet2_ensureArea (cat : Catalog) (a0 a l : Str) :
    alistGet2 (if (alistGet a0 cat).isSome then cat else cat ++ [(a0, [])]) a l =
      alistGet2 cat a l := by
  by_cases hq : (alistGet a0 cat).isSome
  · rw [if_pos hq]
  · rw [if_neg hq]
    unfold alistGet2
    rw [alistGet_append]
    cases hga : alistGet a cat with
    | some m => rfl
    | none =>
      by_cases haa : a0 = a
      · subst haa
        simp [alistGet]
      · simp [alistGet, haa]

theorem alistGet_ensureArea_other (cat : Catalog) (a0 a : Str) (hne : a0 ≠ a) :
    alistGet a (if (alistGet a0 cat).isSome then cat else cat ++ [(a0, [])]) =
      alistGet a cat := by
  by_cases hq : (alistGet a0 cat).isSome
  · rw [if_pos hq]
  · rw [if_neg hq, alistGet_append]
    cases hga : alistGet a cat with
    | some m => rfl
    | none => simp [alistGet, hne]

theorem alistGet_ensureArea_self (cat : Catalog) (a : Str) :
    alistGet a (if (alistGet a cat).isSome then cat else cat ++ [(a, [])]) =
      match alistGet a cat with
      | some m => some m
      | none => some ([] : LocationMap) := by
  by_cases hq : (alistGet a cat).isSome
  · rw [if_pos hq]
    obtain ⟨m, hm⟩ := Option.isSome_iff_exists.mp hq
    rw [hm]
  · rw [if_neg hq, alistGet_append]
    rw [Option.not_isSome_iff_eq_none.mp hq]
    simp [alistGet]

theorem get2_ensureLoc (cat1 : Catalog) (a0 l0 a l : Str)
    (hpre : (alistGet a0 cat1).isSome) :
    alistGet2 (if (alistGet2 cat1 a0 l0).isSome then cat1
      else alistSet a0 (fun m => m ++ [(l0, [])]) cat1) a l =
      if a = a0 ∧ l = l0 then some ((alistGet2 cat1 a l).getD [])
      else alistGet2 cat1 a l := by
  obtain ⟨m0, hm0⟩ := Option.isSome_iff_exists.mp hpre
  by_cases hq : (alistGet2 cat1 a0 l0).isSome
  · rw [if_pos hq]
    by_cases hcond : a = a0 ∧ l = l0
    · obtain ⟨rfl, rfl⟩ := hcond
      rw [if_pos ⟨rfl, rfl⟩]
      obtain ⟨rs, hrs⟩ := Option.isSome_iff_exists.mp hq
      rw [hrs]
      rfl
    · rw [if_neg hcond]
  · rw [if_neg hq]
    have hq2 : alistGet l0 m0 = none := by
      have hexp0 : alistGet2 cat1 a0 l0 = alistGet l0 m0 := by
        unfold alistGet2
        rw [hm0]
      rw [hexp0] at hq
      exact Option.not_isSome_iff_eq_none.mp hq
  
    by_cases ha0 : a = a0
    · obtain rfl := ha0
      have hL : alistGet a (alistSet a (fun m => m ++ [(l0, [])]) cat1) =
          some (m0 ++ [(l0, [])]) := by
        rw [alistGet_set, if_pos rfl, hm0]
        rfl
      have hexp : alistGet2 (alistSet a (fun m => m ++ [(l0, [])]) cat1) a l =
          alistGet l (m0 ++ [(l0, [])]) := by
        unfold alistGet2
        rw [hL]
      have hget2 : alistGet2 cat1 a l = alistGet l m0 := by
        unfold alistGet2
        rw [hm0]
      rw [hexp, alistGet_append, hget2]
      by_cases hl0 : l = l0
      · rw [if_pos ⟨rfl, hl0⟩]
        rw [show l0 = l from hl0.symm] at hq2
        rw [hq2]
        simp [alistGet, hl0]
      · rw [if_neg (fun hp => hl0 hp.2)]
        cases hgl : alistGet l m0 with
        | some v => rfl
        | none =>
          have hne : ¬l0 = l := fun hq3 => hl0 hq3.symm
          simp [alistGet, hne]
    · have hL : alistGet a (alistSet a0 (fun m => m ++ [(l0, [])]) cat1) =
          alistGet a cat1 := by
        rw [alistGet_set, if_neg (fun hq3 => ha0 hq3.symm)]
      have hexp : alistGet2 (alistSet a0 (fun m => m ++ [(l0, [])]) cat1) a l =
          alistGet2 cat1 a l := by
        unfold alistGet2
        rw [hL]
      rw [hexp, if_neg (fun hp => ha0 hp.1)]

theorem get2_setRegion (cat2 : Catalog) (a0 l0 r0 a l : Str) :
    alistGet2 (alistSet a0 (alistSet l0 (fun rs => rs ++ [r0])) cat2) a l =
      if a = a0 ∧ l = l0 then (alistGet2 cat2 a l).map (fun rs => rs ++ [r0])
      else alistGet2 cat2 a l := by
  by_cases ha0 : a = a0
  · obtain rfl := ha0
    cases hga : alistGet a cat2 with
    | none =>
      have hL : alistGet a (alistSet a (alistSet l0 (fun rs => rs ++ [r0])) cat2) = none := by
        rw [alistGet_set, if_pos rfl, hga]
        rfl
      have hui : alistGet2 (alistSet a (alistSet l0 (fun rs => rs ++ [r0])) cat2) a l = none := by
        unfold alistGet2
        rw [hL]
      have hui2 : alistGet2 cat2 a l = none := by
        unfold alistGet2
        rw [hga]
      rw [hui, hui2]
      by_cases hl0 : l = l0 <;> simp [hl0]
    | some m =>
      have hL : alistGet a (alistSet a (alistSet l0 (fun rs => rs ++ [r0])) cat2) =
          some (alistSet l0 (fun rs => rs ++ [r0]) m) := by
        rw [alistGet_set, if_pos rfl, hga]
        rfl
      have hui : alistGet2 (alistSet a (alistSet l0 (fun rs => rs ++ [r0])) cat2) a l =
          alistGet l (alistSet l0 (fun rs => rs ++ [r0]) m) := by
        unfold alistGet2
        rw [hL]
      have hui2 : alistGet2 cat2 a l = alistGet l m := by
        unfold alistGet2
        rw [hga]
      rw [hui, hui2, alistGet_set]
      by_cases hl0 : l = l0
      · obtain rfl := hl0
        rw [if_pos rfl, if_pos ⟨rfl, rfl⟩]
      · rw [if_neg (fun hq3 => hl0 hq3.symm), if_neg (fun hp => hl0 hp.2)]
  · have hL : alistGet a (alistSet a0 (alistSet l0 (fun rs => rs ++ [r0])) cat2) =
        alistGet a cat2 := by
      rw [alistGet_set, if_neg (fun hq3 => ha0 hq3.symm)]
    have hui : alistGet2 (alistSet a0 (alistSet l0 (fun rs => rs ++ [r0])) cat2) a l =
        alistGet2 cat2 a l := by
      unfold alistGet2
      rw [hL]
    rw [hui, if_neg (fun hp => ha0 hp.1)]

theorem WFzone_shapes (z : Str) (hwf : WFzone z) :
    (∃ a0, zoneComps z = [a0] ∧ a0 ≠ []) ∨
    (∃ a0 l0, zoneComps z = [a0, l0] ∧ a0 ≠ [] ∧ l0 ≠ []) ∨
    (∃ a0 l0 r0, zoneComps z = [a0, l0, r0] ∧ a0 ≠ [] ∧ l0 ≠ [] ∧ r0 ≠ []) := by
  obtain ⟨hlen, hne⟩ := hwf
  have hnn : zoneComps z ≠ [] := jsSplitOn_ne_nil '/' z
  rcases hzc : zoneComps z with _ | ⟨a0, rest⟩
  · exact absurd hzc hnn
  rw [hzc] at hlen hne
  rcases rest with _ | ⟨l0, rest2⟩
  · exact Or.inl ⟨a0, rfl, hne a0 (by simp)⟩
  rcases rest2 with _ | ⟨r0, rest3⟩
  · exact Or.inr (Or.inl ⟨a0, l0, rfl, hne a0 (by simp), hne l0 (by simp)⟩)
  rcases rest3 with _ | ⟨x, rest4⟩
  · exact Or.inr (Or.inr ⟨a0, l0, r0, rfl,
      hne a0 (by simp), hne l0 (by simp), hne r0 (by simp)⟩)
  · simp at hlen

theorem addZone_one (cat : Catalog) (zone : Str) (a0 : Str)
    (hz : zoneComps zone = [a0]) :
    addZone cat zone =
      if (alistGet a0 cat).isSome then cat else cat ++ [(a0, [])] := by
  have hz2 : jsSplitOn '/' zone = [a0] := hz
  unfold addZone
  rw [hz2]
  rfl

theorem addZone_two (cat : Catalog) (zone : Str) (a0 l0 : Str)
    (hz : zoneComps zone = [a0, l0]) :
    addZone cat zone =
      (if (alistGet2 (if (alistGet a0 cat).isSome then cat else cat ++ [(a0, [])])
            a0 l0).isSome
       then (if (alistGet a0 cat).isSome then cat else cat ++ [(a0, [])])
       else alistSet a0 (fun m => m ++ [(l0, [])])
         (if (alistGet a0 cat).isSome then cat else cat ++ [(a0, [])])) := by
  have hz2 : jsSplitOn '/' zone = [a0, l0] := hz
  unfold addZone
  rw [hz2]
  rfl

theorem addZone_three (cat : Catalog) (zone : Str) (a0 l0 r0 : Str)
    (hz : zoneComps zone = [a0, l0, r0]) (hr : r0 ≠ []) :
    addZone cat zone =
      alistSet a0 (alistSet l0 (fun rs => rs ++ [r0]))
        (if (alistGet2 (if (alistGet a0 cat).isSome then cat else cat ++ [(a0, [])])
              a0 l0).isSome
         then (if (alistGet a0 cat).isSome then cat else cat ++ [(a0, [])])
         else alistSet a0 (fun m => m ++ [(l0, [])])
           (if (alistGet a0 cat).isSome then cat else cat ++ [(a0, [])])) := by
  have hz2 : jsSplitOn '/' zone = [a0, l0, r0] := hz
  unfold addZone
  rw [hz2]
  rcases r0 with _ | ⟨c, cs⟩
  · exact absurd rfl hr
  · rfl

theorem get2_addZone_one (cat : Catalog) (zone : Str) (a0 a l : Str)
    (hz : zoneComps zone = [a0]) :
    alistGet2 (addZone cat zone) a l = alistGet2 cat a l := by
  rw [addZone_one cat zone a0 hz, alistGet2_ensureArea]

theorem get2_addZone_two (cat : Catalog) (zone : Str) (a0 l0 a l : Str)
    (hz : zoneComps zone = [a0, l0]) :
    alistGet2 (addZone cat zone) a l =
      if a = a0 ∧ l = l0 then some ((alistGet2 cat a l).getD [])
      else alistGet2 cat a l := by
  rw [addZone_two cat zone a0 l0 hz,
    get2_ensureLoc _ a0 l0 a l (ensureArea_isSome cat a0), alistGet2_ensureArea]

theorem get2_addZone_three (cat : Catalog) (zone : Str) (a0 l0 r0 a l : Str)
    (hz : zoneComps zone = [a0, l0, r0]) (hr : r0 ≠ []) :
    alistGet2 (addZone cat zone) a l =
      if a = a0 ∧ l = l0 then some ((alistGet2 cat a l).getD [] ++ [r0])
      else alistGet2 cat a l := by
  rw [addZone_three cat zone a0 l0 r0 hz hr, get2_setRegion,
    get2_ensureLoc _ a0 l0 a l (ensureArea_isSome cat a0), alistGet2_ensureArea]
  by_cases hcond : a = a0 ∧ l = l0
  · rw [if_pos hcond, if_pos hcond, if_pos hcond]
    rfl
  · rw [if_neg hcond, if_neg hcond, if_neg hcond]

theorem zoneArea_of_comps (z : Str) (a0 : Str) (rest : List Str)
    (hz : zoneComps z = a0 :: rest) : zoneArea z = a0 := by
  unfold zoneArea
  rw [hz]
  rfl

theorem addZone_get_other (cat : Catalog) (zone : Str) (hwf : WFzone zone) (a : Str)
    (hne : zoneArea zone ≠ a) :
    alistGet a (addZone cat zone) = alistGet a cat := by
  rcases WFzone_shapes zone hwf with ⟨a0, hz, _⟩ | ⟨a0, l0, hz, _, _⟩ |
    ⟨a0, l0, r0, hz, _, _, hr0⟩
  · rw [zoneArea_of_comps zone a0 [] hz] at hne
    rw [addZone_one cat zone a0 hz, alistGet_ensureArea_other cat a0 a hne]
  · rw [zoneArea_of_comps zone a0 [l0] hz] at hne
    rw [addZone_two cat zone a0 l0 hz]
    by_cases hq : (alistGet2 (if (alistGet a0 cat).isSome then cat
        else cat ++ [(a0, [])]) a0 l0).isSome
    · rw [if_pos hq, alistGet_ensureArea_other cat a0 a hne]
    · rw [if_neg hq, alistGet_set, if_neg hne, alistGet_ensureArea_other cat a0 a hne]
  · rw [zoneArea_of_comps zone a0 [l0, r0] hz] at hne
    rw [addZone_three cat zone a0 l0 r0 hz hr0, alistGet_set, if_neg hne]
    by_cases hq : (alistGet2 (if (alistGet a0 cat).isSome then cat
        else cat ++ [(a0, [])]) a0 l0).isSome
    · rw [if_pos hq, alistGet_ensureArea_other cat a0 a hne]
    · rw [if_neg hq, alistGet_set, if_neg hne, alistGet_ensureArea_other cat a0 a hne]

theorem addZone_own_isSome (cat : Catalog) (zone : Str) (hwf : WFzone zone) :
    (alistGet (zoneArea zone) (addZone cat zone)).isSome := by
  rcases WFzone_shapes zone hwf with ⟨a0, hz, _⟩ | ⟨a0, l0, hz, _, _⟩ |
    ⟨a0, l0, r0, hz, _, _, hr0⟩
  · rw [zoneArea_of_comps zone a0 [] hz, addZone_one cat zone a0 hz]
    exact ensureArea_isSome cat a0
  · rw [zoneArea_of_comps zone a0 [l0] hz, addZone_two cat zone a0 l0 hz]
    by_cases hq : (alistGet2 (if (alistGet a0 cat).isSome then cat
        else cat ++ [(a0, [])]) a0 l0).isSome
    · rw [if_pos hq]
      exact ensureArea_isSome cat a0
    · rw [if_neg hq, alistGet_set, if_pos rfl]
      obtain ⟨m, hm⟩ := Option.isSome_iff_exists.mp (ensureArea_isSome cat a0)
      rw [hm]
      rfl
  · rw [zoneArea_of_comps zone a0 [l0, r0] hz,
      addZone_three cat zone a0 l0 r0 hz hr0, alistGet_set, if_pos rfl]
    by_cases hq : (alistGet2 (if (alistGet a0 cat).isSome then cat
        else cat ++ [(a0, [])]) a0 l0).isSome
    · rw [if_pos hq]
      obtain ⟨m, hm⟩ := Option.isSome_iff_exists.mp (ensureArea_isSome cat a0)
      rw [hm]
      rfl
    · rw [if_neg hq, alistGet_set, if_pos rfl]
      obtain ⟨m, hm⟩ := Option.isSome_iff_exists.mp (ensureArea_isSome cat a0)
      rw [hm]
      rfl

theorem addZone_isSome_mono (cat : Catalog) (zone : Str) (hwf : WFzone zone) (a : Str)
    (hq : (alistGet a cat).isSome) : (alistGet a (addZone cat zone)).isSome := by
  by_cases hne : zoneArea zone = a
  · exact hne ▸ addZone_own_isSome cat zone hwf
  · rw [addZone_get_other cat zone hwf a hne]
    exact hq

theorem foldl_isSome_mono : ∀ (zones : List Str), (∀ z ∈ zones, WFzone z) →
    ∀ (cat : Catalog) (a : Str), (alistGet a cat).isSome →
    (alistGet a (List.foldl addZone cat zones)).isSome
  | [], _, _, _, hq => hq
  | z :: zs, hwf, cat, a, hq => by
    rw [List.foldl_cons]
    exact foldl_isSome_mono zs (fun z2 hq2 => hwf z2 (by simp [hq2])) (addZone cat z) a
      (addZone_isSome_mono cat z (hwf z (by simp)) a hq)

theorem foldl_own_area : ∀ (zones : List Str), (∀ z2 ∈ zones, WFzone z2) →
    ∀ (cat : Catalog) (z : Str), z ∈ zones →
    (alistGet (zoneArea z) (List.foldl addZone cat zones)).isSome
  | [], _, _, _, hz => by simp at hz
  | z1 :: zs, hwf, cat, z, hz => by
    rw [List.foldl_cons]
    rcases List.mem_cons.mp hz with rfl | hz2
    · exact foldl_isSome_mono zs (fun z2 hq2 => hwf z2 (by simp [hq2])) (addZone cat z)
        (zoneArea z) (addZone_own_isSome cat z (hwf z (by simp)))
    · exact foldl_own_area zs (fun z2 hq2 => hwf z2 (by simp [hq2])) (addZone cat z1) z hz2

theorem get2_foldl : ∀ (zones : List Str), (∀ z ∈ zones, WFzone z) →
    ∀ (cat : Catalog) (a l : Str),
    alistGet2 (List.foldl addZone cat zones) a l =
      match alistGet2 cat a l with
      | some rs => some (rs ++ regionsOf zones a l)
      | none => if hasLocB zones a l then some (regionsOf zones a l) else none
  | [], _, cat, a, l => by
    simp only [List.foldl_nil, regionsOf, hasLocB, List.filterMap_nil, List.any_nil]
    cases alistGet2 cat a l <;> simp
  | z :: zs, hwf, cat, a, l => by
    rw [List.foldl_cons,
      get2_foldl zs (fun z2 hq2 => hwf z2 (by simp [hq2])) (addZone cat z) a l]
    rcases WFzone_shapes z (hwf z (by simp)) with ⟨a0, hz, _⟩ | ⟨a0, l0, hz, _, _⟩ |
      ⟨a0, l0, r0, hz, _, _, hr0⟩
    · rw [get2_addZone_one cat z a0 a l hz]
      have hreg : regionsOf (z :: zs) a l = regionsOf zs a l := by
        simp only [regionsOf, List.filterMap_cons, hz]
      have hhas : hasLocB (z :: zs) a l = hasLocB zs a l := by
        simp only [hasLocB, List.any_cons, hz, Bool.false_or]
      rw [hreg, hhas]
    · rw [get2_addZone_two cat z a0 l0 a l hz]
      have hreg : regionsOf (z :: zs) a l = regionsOf zs a l := by
        simp only [regionsOf, List.filterMap_cons, hz]
      by_cases hcond : a = a0 ∧ l = l0
      · obtain ⟨rfl, rfl⟩ := hcond
        have hhas : hasLocB (z :: zs) a l = true := by
          simp [hasLocB, hz]
        rw [if_pos ⟨rfl, rfl⟩, hreg, hhas]
        cases alistGet2 cat a l <;> simp
      · rw [if_neg hcond, hreg]
        have hwr : ¬(a0 = a ∧ l0 = l) := fun hp => hcond ⟨hp.1.symm, hp.2.symm⟩
        have hhas : hasLocB (z :: zs) a l = hasLocB zs a l := by
          simp [hasLocB, hz, hwr]
        rw [hhas]
    · rw [get2_addZone_three cat z a0 l0 r0 a l hz hr0]
      by_cases hcond : a = a0 ∧ l = l0
      · obtain ⟨rfl, rfl⟩ := hcond
        have hreg : regionsOf (z :: zs) a l = r0 :: regionsOf zs a l := by
          simp [regionsOf, List.filterMap_cons, hz]
        have hhas : hasLocB (z :: zs) a l = true := by
          simp [hasLocB, hz]
        rw [if_pos ⟨rfl, rfl⟩, hreg, hhas]
        cases alistGet2 cat a l <;> simp
      · rw [if_neg hcond]
        have hwr : ¬(a0 = a ∧ l0 = l) := fun hp => hcond ⟨hp.1.symm, hp.2.symm⟩
        have hreg : regionsOf (z :: zs) a l = regionsOf zs a l := by
          simp [regionsOf, List.filterMap_cons, hz, hwr]
        have hhas : hasLocB (z :: zs) a l = hasLocB zs a l := by
          simp [hasLocB, hz, hwr]
        rw [hreg, hhas]

theorem get1_foldl_area_only : ∀ (zones : List Str), (∀ z ∈ zones, WFzone z) →
    ∀ (a : Str), (∀ z ∈ zones, zoneArea z = a → zoneComps z = [a]) →
    ∀ (cat : Catalog),
    alistGet a (List.foldl addZone cat zones) =
      match alistGet a cat with
      | some m => some m
      | none => if zones.any (fun z => zoneArea z = a) then some [] else none
  | [], _, a, _, cat => by
    simp only [List.foldl_nil, List.any_nil]
    cases alistGet a cat <;> simp
  | z :: zs, hwf, a, honly, cat => by
    rw [List.foldl_cons,
      get1_foldl_area_only zs (fun z2 hq2 => hwf z2 (by simp [hq2])) a
        (fun z2 hq2 hza2 => honly z2 (by simp [hq2]) hza2) (addZone cat z)]
    by_cases hza : zoneArea z = a
    · have hz1 : zoneComps z = [a] := honly z (by simp) hza
      have hstep : alistGet a (addZone cat z) =
          match alistGet a cat with
          | some m => some m
          | none => some ([] : LocationMap) := by
        rw [addZone_one cat z a hz1]
        exact alistGet_ensureArea_self cat a
      have hany : (z :: zs).any (fun z2 => zoneArea z2 = a) = true := by
        simp [hza]
      rw [hstep, hany]
      cases hga : alistGet a cat <;> simp
    · have hstep : alistGet a (addZone cat z) = alistGet a cat :=
        addZone_get_other cat z (hwf z (by simp)) a hza
      have hany : (z :: zs).any (fun z2 => zoneArea z2 = a) =
          zs.any (fun z2 => zoneArea z2 = a) := by
        simp [hza]
      rw [hstep, hany]

/-- Claim C5: for every list of well-formed zone path strings (one to three
slash-delimited nonempty components), the built catalog has every appearing
area as a top-level key (with an empty mapping when the area never appears
with a location), every appearing location as a key under its area, and each
stored region list is exactly the regions of the three-component paths for
that area and location, in input order, duplicates kept. -/
theorem claim_C5 (zones : List Str) (hwf : ∀ z ∈ zones, WFzone z) :
    (∀ z ∈ zones, (alistGet (zoneArea z) (loadTimezoneLocales zones)).isSome)
    ∧ (∀ z ∈ zones, ∀ a l rest, zoneComps z = a :: l :: rest →
        (alistGet2 (loadTimezoneLocales zones) a l).isSome)
    ∧ (∀ a l rs, alistGet2 (loadTimezoneLocales zones) a l = some rs →
        rs = regionsOf zones a l)
    ∧ (∀ a, a ∈ zones.map zoneArea →
        (∀ z ∈ zones, zoneArea z = a → zoneComps z = [a]) →
        alistGet a (loadTimezoneLocales zones) = some []) := by
  have hbase : ∀ a l : Str, alistGet2 ([] : Catalog) a l = none := fun a l => rfl
  refine ⟨?_, ?_, ?_, ?_⟩
  · intro z hz
    exact foldl_own_area zones hwf [] z hz
  · intro z hz a l rest hcomp
    have hb : hasLocB zones a l = true := by
      unfold hasLocB
      rw [List.any_eq_true]
      refine ⟨z, hz, ?_⟩
      rw [hcomp]
      simp
    unfold loadTimezoneLocales
    rw [get2_foldl zones hwf [] a l, hbase, hb]
    simp
  · intro a l rs hrs
    unfold loadTimezoneLocales at hrs
    rw [get2_foldl zones hwf [] a l, hbase] at hrs
    by_cases hb : hasLocB zones a l = true
    · rw [hb] at hrs
      simp at hrs
      exact hrs.symm
    · simp [hb] at hrs
  · intro a hmem honly
    unfold loadTimezoneLocales
    rw [get1_foldl_area_only zones hwf a honly []]
    have hany : zones.any (fun z => zoneArea z = a) = true := by
      rw [List.any_eq_true]
      obtain ⟨z, hz, hza⟩ := List.mem_map.mp hmem
      exact ⟨z, hz, by simp [hza]⟩
    rw [show alistGet a ([] : Catalog) = none from rfl, hany]
    simp

instance (z : Str) : Decidable (WFzone z) := by
  unfold WFzone
  exact inferInstance

/-- Witness for claim C5 on a three-zone list exercising all three path
shapes. -/
theorem claim_C5_witness :
    (∀ z ∈ [ofStr "America/New_York", ofStr "UTC",
        ofStr "America/Argentina/Buenos_Aires"],
      (alistGet (zoneArea z) (loadTimezoneLocales [ofStr "America/New_York",
        ofStr "UTC", ofStr "America/Argentina/Buenos_Aires"])).isSome)
    ∧ (∀ z ∈ [ofStr "America/New_York", ofStr "UTC",
        ofStr "America/Argentina/Buenos_Aires"], ∀ a l rest,
        zoneComps z = a :: l :: rest →
        (alistGet2 (loadTimezoneLocales [ofStr "America/New_York", ofStr "UTC",
          ofStr "America/Argentina/Buenos_Aires"]) a l).isSome)
    ∧ (∀ a l rs, alistGet2 (loadTimezoneLocales [ofStr "America/New_York",
        ofStr "UTC", ofStr "America/Argentina/Buenos_Aires"]) a l = some rs →
        rs = regionsOf [ofStr "America/New_York", ofStr "UTC",
          ofStr "America/Argentina/Buenos_Aires"] a l)
    ∧ (∀ a, a ∈ [ofStr "America/New_York", ofStr "UTC",
        ofStr "America/Argentina/Buenos_Aires"].map zoneArea →
        (∀ z ∈ [ofStr "America/New_York", ofStr "UTC",
          ofStr "America/Argentina/Buenos_Aires"], zoneArea z = a →
          zoneComps z = [a]) →
        alistGet a (loadTimezoneLocales [ofStr "America/New_York", ofStr "UTC",
          ofStr "America/Argentina/Buenos_Aires"]) = some []) :=
  claim_C5 [ofStr "America/New_York", ofStr "UTC",
    ofStr "America/Argentina/Buenos_Aires"] (by decide)
